import Mathlib

/-!
Verification of the date/sprint arithmetic and subtask-allocation core of the
roadmap builder (source files src/utils/workingDays.ts and
src/utils/subtaskAllocation.ts).

Calendar dates are modelled as integer day numbers.  We fix day 0 to be a
Sunday, so that the JavaScript weekday index (Date.prototype.getDay, with
0 = Sunday, ..., 6 = Saturday) of day d is the Euclidean remainder d % 7,
always in 0..6.  With that epoch, the literal configuration date 2026-01-01
(a Thursday) used in the store defaults is day number 4.

JavaScript numbers at the integer values used by this core are modelled as
Int.  The unique identifiers (uuid v4) attached to generated subtasks are an
impure identity stamp with no role in any date computation and are omitted
from the model.
-/

/-- Weekday index of day number d: 0 = Sunday, ..., 6 = Saturday
(the value of JavaScript Date.prototype.getDay under the chosen epoch). -/
def getDay (d : Int) : Int := d % 7

/-- workingDays.ts, isWeekend: true exactly for Sunday (0) and Saturday (6).
The function consults no configuration. -/
def isWeekend (d : Int) : Bool := getDay d == 0 || getDay d == 6

/-- The while-loop of nextWorkingDay, with explicit fuel.  Among any 7
consecutive days at least one is not a weekend day, so fuel 7 always lets the
loop reach its exit condition; the fuelled function therefore computes exactly
what the unbounded while-loop of the source computes. -/
def nextWorkingDayFuel : Nat → Int → Int
  | 0, d => d
  | fuel + 1, d => if isWeekend d then nextWorkingDayFuel fuel (d + 1) else d

/-- workingDays.ts, nextWorkingDay: returns the date itself when it is a
working day, else advances one calendar day at a time. -/
def nextWorkingDay (d : Int) : Int := nextWorkingDayFuel 7 d

/-- The counting loop of addWorkingDays.  Each counted iteration advances from
the current day to the next working day strictly after it: the source
increments the cursor one calendar day at a time and only counts iterations
that land on a working day, so the block of iterations between two counts
computes nextWorkingDay (c + 1). -/
def addWorkingDaysAux : Nat → Int → Int
  | 0, c => c
  | k + 1, c => addWorkingDaysAux k (nextWorkingDay (c + 1))

/-- workingDays.ts, addWorkingDays: snap the input to the next working day,
then advance by n further working days.  A non-positive n runs the loop zero
times (Int.toNat clamps at 0), returning the snapped input. -/
def addWorkingDays (d : Int) (n : Int) : Int :=
  addWorkingDaysAux n.toNat (nextWorkingDay d)

/-- The counting loop of countWorkingDays: fuel is the number of calendar days
left to visit, c the current day. -/
def countWorkingDaysAux : Nat → Int → Int
  | 0, _ => 0
  | k + 1, c => (if isWeekend c then 0 else 1) + countWorkingDaysAux k (c + 1)

/-- workingDays.ts, countWorkingDays: number of working days in the inclusive
range from start to stop; 0 when stop < start.  The source loop visits the
stop - start + 1 calendar days of the range. -/
def countWorkingDays (start stop : Int) : Int :=
  if stop < start then 0 else countWorkingDaysAux ((stop - start).toNat + 1) start

/-- types.ts, SprintConfig.  The weekendDays field exists on the TypeScript
interface (default [0, 6]) but the working-day core never reads it. -/
structure SprintConfig where
  firstSprintNumber : Int
  firstSprintStartDate : Int
  workingDaysPerSprint : Int
  weekendDays : List Int
  deriving Repr, DecidableEq

/-- roadmapStore.ts, DEFAULT_CONFIG: sprint 71 starts 2026-01-01 (day 4 under
the chosen epoch), 10 working days per sprint, weekend Sunday/Saturday. -/
def DEFAULT_CONFIG : SprintConfig :=
  { firstSprintNumber := 71
    firstSprintStartDate := 4
    workingDaysPerSprint := 10
    weekendDays := [0, 6] }

/-- workingDays.ts, sprintStartDate. -/
def sprintStartDate (sprintNumber : Int) (config : SprintConfig) : Int :=
  let firstStart := config.firstSprintStartDate
  let sprintDiff := sprintNumber - config.firstSprintNumber
  if sprintDiff = 0 then
    nextWorkingDay firstStart
  else
    addWorkingDays firstStart (sprintDiff * config.workingDaysPerSprint)

/-- workingDays.ts, sprintEndDate: workingDaysPerSprint - 1 working days after
the sprint start. -/
def sprintEndDate (sprintNumber : Int) (config : SprintConfig) : Int :=
  addWorkingDays (sprintStartDate sprintNumber config) (config.workingDaysPerSprint - 1)

/-- The while(true) scan of getSprintForDate.  The source increments sprintNum
and returns it as soon as sprintNum > firstSprintNumber + 1000; starting the
fuelled scan at sprintNum = firstSprintNumber with fuel 1001 makes fuel
exhaustion coincide exactly with that bail-out, returning the same sentinel
value firstSprintNumber + 1001. -/
def getSprintForDateAux (date : Int) (config : SprintConfig) : Nat → Int → Int
  | 0, sprintNum => sprintNum
  | fuel + 1, sprintNum =>
    if date ≤ sprintEndDate sprintNum config then sprintNum
    else getSprintForDateAux date config fuel (sprintNum + 1)

/-- workingDays.ts, getSprintForDate: sentinel firstSprintNumber - 1 for dates
before the anchor date, else a bounded forward scan. -/
def getSprintForDate (date : Int) (config : SprintConfig) : Int :=
  if date < config.firstSprintStartDate then config.firstSprintNumber - 1
  else getSprintForDateAux date config 1001 config.firstSprintNumber

/-- subtaskAllocation.ts, the allocation record for the three phases. -/
structure Allocation where
  REQ_UX : Int
  DEV : Int
  QA : Int
  deriving Repr, DecidableEq

/-- JavaScript Math.round(t * 0.2), i.e. round-half-up of t / 5.  For every
integer t in the safe range the floating product t * 0.2 lies well within 0.1
of the rational t / 5, whose fractional part is never one half, so
Math.round(t * 0.2) equals the exact round-half-up value
floor(t / 5 + 1 / 2) = (2 * t + 5) / 10 under floor division. -/
def roundFifth (t : Int) : Int := (2 * t + 5) / 10

/-- subtaskAllocation.ts, allocateWorkingDays.  SUBTASK_DISTRIBUTION assigns
REQ_UX and QA 20 percent each, DEV the remainder.  Math.ceil(e / 2) for
positive integer e is (e + 1) / 2 and Math.floor(e / 2) is e / 2 under floor
division (halving an integer is exact in floating point). -/
def allocateWorkingDays (totalWorkingDays : Int) : Allocation :=
  -- Minimum 1 day per subtask if we have enough days
  let minDays : Int := if 3 ≤ totalWorkingDays then 1 else 0
  -- Raw allocations
  let reqDays0 := max minDays (roundFifth totalWorkingDays)
  let qaDays0 := max minDays (roundFifth totalWorkingDays)
  let devDays0 := totalWorkingDays - reqDays0 - qaDays0
  -- Ensure dev has at least minimum days if possible, reducing req/qa
  let rebalanced : Int × Int × Int :=
    if devDays0 < minDays ∧ 3 ≤ totalWorkingDays then
      let excess := reqDays0 + qaDays0 + minDays - totalWorkingDays
      if 0 < excess then
        let reqDays1 :=
          if minDays < reqDays0 then max minDays (reqDays0 - (excess + 1) / 2) else reqDays0
        let qaDays1 :=
          if minDays < qaDays0 then max minDays (qaDays0 - excess / 2) else qaDays0
        (reqDays1, qaDays1, totalWorkingDays - reqDays1 - qaDays1)
      else
        (reqDays0, qaDays0, minDays)
    else
      (reqDays0, qaDays0, devDays0)
  -- Very small ranges (< 3 days)
  if totalWorkingDays < 3 then
    if totalWorkingDays = 1 then ⟨0, 1, 0⟩
    else if totalWorkingDays = 2 then ⟨0, 1, 1⟩
    else ⟨0, 0, 0⟩
  else ⟨rebalanced.1, rebalanced.2.2, rebalanced.2.1⟩

/-- types.ts, SubtaskType. -/
inductive SubtaskType
  | REQ_UX
  | DEV
  | QA
  deriving Repr, DecidableEq

/-- subtaskAllocation.ts, SUBTASK_ORDER: order of subtask execution. -/
def SUBTASK_ORDER : List SubtaskType := [.REQ_UX, .DEV, .QA]

/-- Field lookup on an Allocation by subtask type (the source indexes the
allocation record by the loop variable). -/
def Allocation.get (a : Allocation) : SubtaskType → Int
  | .REQ_UX => a.REQ_UX
  | .DEV => a.DEV
  | .QA => a.QA

/-- types.ts, Subtask.  The uuid identity field is omitted (see the header
note).  Override dates are optional; the source treats an absent (or empty)
override string as not set, modelled here with Option. -/
structure Subtask where
  type : SubtaskType
  autoStartDate : Int
  autoEndDate : Int
  overrideStartDate : Option Int := none
  overrideEndDate : Option Int := none
  deriving Repr, DecidableEq

/-- The for-loop over SUBTASK_ORDER shared verbatim by generateSubtasks and
generateSubtasksFromDates in the source: itemStart is the placeholder date
used for zero-day subtasks, the second Int argument is the running cursor. -/
def generateSubtasksGo (itemStart : Int) (alloc : SubtaskType → Int) :
    List SubtaskType → Int → List Subtask
  | [], _ => []
  | t :: rest, currentStart =>
    let days := alloc t
    if 0 < days then
      let firstDay := nextWorkingDay currentStart
      let lastDay := addWorkingDays firstDay (days - 1)
      { type := t, autoStartDate := firstDay, autoEndDate := lastDay } ::
        generateSubtasksGo itemStart alloc rest (lastDay + 1)
    else
      { type := t, autoStartDate := itemStart, autoEndDate := itemStart } ::
        generateSubtasksGo itemStart alloc rest currentStart

/-- subtaskAllocation.ts, generateSubtasksFromDates (date mode). -/
def generateSubtasksFromDates (startDate endDate : Int) : List Subtask :=
  let totalWorkingDays := countWorkingDays startDate endDate
  let allocation := allocateWorkingDays totalWorkingDays
  generateSubtasksGo startDate allocation.get SUBTASK_ORDER startDate

/-- subtaskAllocation.ts, generateSubtasks (sprint mode). -/
def generateSubtasks (startSprint endSprint : Int) (config : SprintConfig) :
    List Subtask :=
  let itemStart := sprintStartDate startSprint config
  let itemEnd := sprintEndDate endSprint config
  let totalWorkingDays := countWorkingDays itemStart itemEnd
  let allocation := allocateWorkingDays totalWorkingDays
  generateSubtasksGo itemStart allocation.get SUBTASK_ORDER itemStart

/-- subtaskAllocation.ts, getEffectiveDates: override where present, auto
dates otherwise; the two boundaries fall back independently.  Returned as the
pair (start, end). -/
def getEffectiveDates (subtask : Subtask) : Int × Int :=
  (subtask.overrideStartDate.getD subtask.autoStartDate,
   subtask.overrideEndDate.getD subtask.autoEndDate)

/-- The three validation failure messages of validateSubtaskOverride. -/
inductive OverrideError
  | EndBeforeStart        -- "End date must be on or after start date"
  | StartBeforeItemStart  -- "Start date cannot be before item start date"
  | EndAfterItemEnd       -- "End date cannot be after item end date"
  deriving Repr, DecidableEq

/-- subtaskAllocation.ts, validateSubtaskOverride: none when valid, otherwise
the first failing check in source order. -/
def validateSubtaskOverride (subtask : Subtask) (itemStartDate itemEndDate : Int) :
    Option OverrideError :=
  let eff := getEffectiveDates subtask
  if eff.2 < eff.1 then some .EndBeforeStart
  else if eff.1 < itemStartDate then some .StartBeforeItemStart
  else if itemEndDate < eff.2 then some .EndAfterItemEnd
  else none

/-- The body of the map in recalculateSubtasks, for one freshly generated
subtask.  itemStart and itemEnd are the sprint bounds the source computes
inside the branch; they depend only on the sprint arguments, so hoisting them
to parameters does not change the result. -/
def recalculateOne (currentSubtasks : List Subtask) (itemStart itemEnd : Int)
    (newSubtask : Subtask) : Subtask :=
  match currentSubtasks.find? (fun s => s.type == newSubtask.type) with
  | some existing =>
    if existing.overrideStartDate.isSome || existing.overrideEndDate.isSome then
      let withOverrides : Subtask :=
        { newSubtask with
          overrideStartDate := existing.overrideStartDate
          overrideEndDate := existing.overrideEndDate }
      match validateSubtaskOverride withOverrides itemStart itemEnd with
      | none => withOverrides
      | some _ => newSubtask
    else newSubtask
  | none => newSubtask

/-- subtaskAllocation.ts, recalculateSubtasks: regenerate auto dates, then for
each phase keep the overrides of an existing subtask of the same type exactly
when at least one override is set and the override record validates against
the new item bounds. -/
def recalculateSubtasks (currentSubtasks : List Subtask) (startSprint endSprint : Int)
    (config : SprintConfig) : List Subtask :=
  let newSubtasks := generateSubtasks startSprint endSprint config
  newSubtasks.map
    (recalculateOne currentSubtasks (sprintStartDate startSprint config)
      (sprintEndDate endSprint config))

/-- Modelled from the spec: the configurable working-day test of section 4.1,
"isWorkingDay(date) -> bool: true unless the weekday of the date is in
weekendDays".  The source has no configurable working-day test (isWeekend
hardcodes Sunday and Saturday), so the configurable form exists only on the
spec side and is used to compare claim C4 against the code. -/
def isWorkingDaySpec (weekendDays : List Int) (d : Int) : Bool :=
  !(weekendDays.contains (getDay d))

/-! ## Basic facts about the working-day calendar -/

lemma isWeekend_true_iff (d : Int) : isWeekend d = true ↔ d % 7 = 0 ∨ d % 7 = 6 := by
  simp [isWeekend, getDay]

lemma isWeekend_false_iff (d : Int) : isWeekend d = false ↔ ¬(d % 7 = 0 ∨ d % 7 = 6) := by
  simp [isWeekend, getDay]

/-- Closed form of nextWorkingDay: Sunday jumps one day, Saturday two, any
other day stays. -/
lemma nextWorkingDay_eq (d : Int) :
    nextWorkingDay d = if d % 7 = 0 then d + 1 else if d % 7 = 6 then d + 2 else d := by
  have h : d % 7 = 0 ∨ d % 7 = 6 ∨ ¬(d % 7 = 0 ∨ d % 7 = 6) := by omega
  rcases h with h | h | h
  · have hw0 : isWeekend d = true := by rw [isWeekend_true_iff]; omega
    have hw1 : isWeekend (d + 1) = false := by rw [isWeekend_false_iff]; omega
    simp [nextWorkingDay, nextWorkingDayFuel, hw0, hw1, h]
  · have hw0 : isWeekend d = true := by rw [isWeekend_true_iff]; omega
    have hw1 : isWeekend (d + 1) = true := by rw [isWeekend_true_iff]; omega
    have hw2 : isWeekend (d + 1 + 1) = false := by rw [isWeekend_false_iff]; omega
    have hne : ¬(d % 7 = 0) := by omega
    simp [nextWorkingDay, nextWorkingDayFuel, hw0, hw1, hw2, h, hne]
    try omega
  · have hw0 : isWeekend d = false := by rw [isWeekend_false_iff]; omega
    have h0 : ¬(d % 7 = 0) := by omega
    have h6 : ¬(d % 7 = 6) := by omega
    simp [nextWorkingDay, nextWorkingDayFuel, hw0, h0, h6]

lemma le_nextWorkingDay (d : Int) : d ≤ nextWorkingDay d := by
  rw [nextWorkingDay_eq]; split_ifs <;> omega

lemma nextWorkingDay_not_weekend (d : Int) : isWeekend (nextWorkingDay d) = false := by
  rw [nextWorkingDay_eq]
  split_ifs with h0 h6 <;> rw [isWeekend_false_iff] <;> omega

lemma nextWorkingDay_min (d x : Int) (hdx : d ≤ x) (hx : x < nextWorkingDay d) :
    isWeekend x = true := by
  rw [nextWorkingDay_eq] at hx
  rw [isWeekend_true_iff]
  split_ifs at hx <;> omega

lemma nextWorkingDay_of_not_weekend (d : Int) (h : isWeekend d = false) :
    nextWorkingDay d = d := by
  rw [isWeekend_false_iff] at h
  rw [nextWorkingDay_eq]
  split_ifs <;> omega

/-! ## Facts about the addWorkingDays walk -/

lemma addWorkingDaysAux_not_weekend (k : Nat) (c : Int) (h : isWeekend c = false) :
    isWeekend (addWorkingDaysAux k c) = false := by
  induction k generalizing c with
  | zero => simpa [addWorkingDaysAux] using h
  | succ k ih => rw [addWorkingDaysAux]; exact ih _ (nextWorkingDay_not_weekend _)

lemma le_addWorkingDaysAux (k : Nat) (c : Int) : c ≤ addWorkingDaysAux k c := by
  induction k generalizing c with
  | zero => simp [addWorkingDaysAux]
  | succ k ih =>
    rw [addWorkingDaysAux]
    have h1 : c + 1 ≤ nextWorkingDay (c + 1) := le_nextWorkingDay _
    have h2 := ih (nextWorkingDay (c + 1))
    omega

/-- The walk commutes: stepping once more at the end equals stepping once more
at the start. -/
lemma addWorkingDaysAux_succ (k : Nat) (c : Int) :
    addWorkingDaysAux (k + 1) c = nextWorkingDay (addWorkingDaysAux k c + 1) := by
  induction k generalizing c with
  | zero => rfl
  | succ k ih =>
    show addWorkingDaysAux (k + 1) (nextWorkingDay (c + 1)) = _
    rw [ih]
    rfl

lemma addWorkingDaysAux_add (a b : Nat) (c : Int) :
    addWorkingDaysAux (a + b) c = addWorkingDaysAux b (addWorkingDaysAux a c) := by
  induction b with
  | zero => rfl
  | succ b ih =>
    have h1 : a + (b + 1) = (a + b) + 1 := rfl
    rw [h1, addWorkingDaysAux_succ, ih, ← addWorkingDaysAux_succ]

lemma addWorkingDaysAux_lt_succ (k : Nat) (c : Int) :
    addWorkingDaysAux k c < addWorkingDaysAux (k + 1) c := by
  rw [addWorkingDaysAux_succ]
  have := le_nextWorkingDay (addWorkingDaysAux k c + 1)
  omega

lemma addWorkingDaysAux_le_of_le (c : Int) {j k : Nat} (h : j ≤ k) :
    addWorkingDaysAux j c ≤ addWorkingDaysAux k c := by
  obtain ⟨m, rfl⟩ := Nat.exists_eq_add_of_le h
  rw [addWorkingDaysAux_add]
  exact le_addWorkingDaysAux m _

lemma addWorkingDaysAux_lt_of_lt (c : Int) {j k : Nat} (h : j < k) :
    addWorkingDaysAux j c < addWorkingDaysAux k c := by
  have h1 : j + 1 ≤ k := h
  calc addWorkingDaysAux j c < addWorkingDaysAux (j + 1) c := addWorkingDaysAux_lt_succ j c
    _ ≤ addWorkingDaysAux k c := addWorkingDaysAux_le_of_le c h1

/-- The gap between two consecutive stops of the walk contains only weekend
days. -/
lemma addWorkingDaysAux_gap (k : Nat) (c x : Int)
    (h1 : addWorkingDaysAux k c < x) (h2 : x < addWorkingDaysAux (k + 1) c) :
    isWeekend x = true := by
  rw [addWorkingDaysAux_succ] at h2
  exact nextWorkingDay_min _ x (by omega) h2

/-! ## Counting working days as a finite set -/

/-- The set of working days in the inclusive range from a to b. -/
def workingSet (a b : Int) : Finset Int :=
  (Finset.Icc a b).filter (fun d => isWeekend d = false)

lemma workingSet_cons (a b : Int) (hab : a ≤ b) :
    (workingSet a b).card = (if isWeekend a then 0 else 1) + (workingSet (a + 1) b).card := by
  unfold workingSet
  have hIcc : Finset.Icc a b = insert a (Finset.Icc (a + 1) b) := by
    ext x
    simp only [Finset.mem_Icc, Finset.mem_insert]
    omega
  rw [hIcc, Finset.filter_insert]
  by_cases hw : isWeekend a
  · simp [hw]
  · have hnotmem : a ∉ (Finset.Icc (a + 1) b).filter (fun d => isWeekend d = false) := by
      simp only [Finset.mem_filter, Finset.mem_Icc]
      intro h
      omega
    rw [if_pos (by simpa using hw), Finset.card_insert_of_not_mem hnotmem, if_neg hw]
    omega

lemma workingSet_empty (a b : Int) (h : b < a) : workingSet a b = ∅ := by
  unfold workingSet
  rw [Finset.Icc_eq_empty (by omega), Finset.filter_empty]

lemma countWorkingDays_eq_card (s e : Int) :
    countWorkingDays s e = ((workingSet s e).card : Int) := by
  rcases le_or_lt s e with h | h
  · obtain ⟨n, hn⟩ : ∃ n : Nat, e = s + n := ⟨(e - s).toNat, by omega⟩
    subst hn
    induction n generalizing s with
    | zero =>
      rw [countWorkingDays, if_neg (by omega)]
      have h1 : ((s + (0:Nat) : Int) - s).toNat + 1 = 1 := by omega
      rw [h1]
      rw [workingSet_cons s (s + (0:Nat)) (by omega)]
      rw [workingSet_empty (s + 1) (s + (0:Nat)) (by omega)]
      simp [countWorkingDaysAux]
    | succ n ih =>
      rw [countWorkingDays, if_neg (by omega)]
      have h1 : ((s + (n + 1 : Nat) : Int) - s).toNat + 1 = (n + 1) + 1 := by omega
      rw [h1, countWorkingDaysAux]
      have h2 : countWorkingDaysAux (n + 1) (s + 1) = countWorkingDays (s + 1) (s + 1 + n) := by
        rw [countWorkingDays, if_neg (by omega)]
        have h3 : ((s + 1 + (n : Nat) : Int) - (s + 1)).toNat + 1 = n + 1 := by omega
        rw [h3]
      rw [h2, ih (s + 1) (by omega)]
      rw [workingSet_cons s (s + ((n + 1 : Nat) : Int)) (by omega)]
      have h4 : s + ((n + 1 : Nat) : Int) = s + 1 + (n : Nat) := by push_cast; ring
      rw [h4]
      split_ifs <;> push_cast <;> omega
  · rw [countWorkingDays, if_pos h, workingSet_empty s e h]
    simp

lemma workingSet_nextWorkingDay (d : Int) :
    workingSet d (nextWorkingDay d) = {nextWorkingDay d} := by
  ext x
  simp only [workingSet, Finset.mem_filter, Finset.mem_Icc, Finset.mem_singleton]
  constructor
  · rintro ⟨⟨h1, h2⟩, h3⟩
    by_contra hne
    have hw := nextWorkingDay_min d x h1 (lt_of_le_of_ne h2 hne)
    rw [hw] at h3
    exact absurd h3 (by simp)
  · rintro rfl
    exact ⟨⟨le_nextWorkingDay d, le_refl _⟩, nextWorkingDay_not_weekend d⟩

lemma countWorkingDays_nextWorkingDay (d : Int) :
    countWorkingDays d (nextWorkingDay d) = 1 := by
  rw [countWorkingDays_eq_card, workingSet_nextWorkingDay, Finset.card_singleton]
  rfl

lemma workingSet_split (s m e : Int) (h1 : s ≤ m + 1) (h2 : m ≤ e) :
    workingSet s e = workingSet s m ∪ workingSet (m + 1) e := by
  unfold workingSet
  rw [← Finset.filter_union]
  congr 1
  ext x
  simp only [Finset.mem_Icc, Finset.mem_union]
  omega

lemma countWorkingDays_split (s m e : Int) (h1 : s ≤ m + 1) (h2 : m ≤ e) :
    countWorkingDays s e = countWorkingDays s m + countWorkingDays (m + 1) e := by
  rw [countWorkingDays_eq_card, countWorkingDays_eq_card, countWorkingDays_eq_card]
  rw [workingSet_split s m e h1 h2]
  rw [Finset.card_union_of_disjoint]
  · push_cast; ring
  · rw [Finset.disjoint_left]
    intro x hx hy
    simp only [workingSet, Finset.mem_filter, Finset.mem_Icc] at hx hy
    omega

lemma countWorkingDays_pos (a b x : Int) (h1 : a ≤ x) (h2 : x ≤ b)
    (h3 : isWeekend x = false) : 1 ≤ countWorkingDays a b := by
  rw [countWorkingDays_eq_card]
  have hx : x ∈ workingSet a b := by
    simp only [workingSet, Finset.mem_filter, Finset.mem_Icc]
    exact ⟨⟨h1, h2⟩, h3⟩
  have hc := Finset.card_pos.mpr ⟨x, hx⟩
  omega

/-- The walk that starts at nextWorkingDay S and makes j further counted steps
lands on the (j + 1)-st working day at or after S. -/
lemma countWorkingDays_walk (S : Int) (j : Nat) :
    countWorkingDays S (addWorkingDaysAux j (nextWorkingDay S)) = j + 1 := by
  induction j with
  | zero =>
    show countWorkingDays S (nextWorkingDay S) = _
    rw [countWorkingDays_nextWorkingDay]
    rfl
  | succ j ih =>
    have hw : S ≤ addWorkingDaysAux j (nextWorkingDay S) :=
      le_trans (le_nextWorkingDay S) (le_addWorkingDaysAux j _)
    rw [addWorkingDaysAux_succ]
    rw [countWorkingDays_split S (addWorkingDaysAux j (nextWorkingDay S))
      (nextWorkingDay (addWorkingDaysAux j (nextWorkingDay S) + 1)) (by omega)
      (by have := le_nextWorkingDay (addWorkingDaysAux j (nextWorkingDay S) + 1); omega)]
    rw [ih, countWorkingDays_nextWorkingDay]
    push_cast
    ring

/-! ## The allocation algorithm -/

lemma roundFifth_one_le (t : Int) (h3 : 3 ≤ t) : 1 ≤ roundFifth t := by
  unfold roundFifth; omega

lemma roundFifth_dev_pos (t : Int) (h3 : 3 ≤ t) : 1 ≤ t - roundFifth t - roundFifth t := by
  unfold roundFifth; omega

/-- For totals of at least 3 days the raw percentage split already leaves DEV
at least one day, so the rebalancing branch is never taken. -/
lemma allocateWorkingDays_of_three_le (t : Int) (h3 : 3 ≤ t) :
    allocateWorkingDays t =
      ⟨roundFifth t, t - roundFifth t - roundFifth t, roundFifth t⟩ := by
  have h1 : 1 ≤ roundFifth t := roundFifth_one_le t h3
  have h2 : 1 ≤ t - roundFifth t - roundFifth t := roundFifth_dev_pos t h3
  have hm : (if 3 ≤ t then (1 : Int) else 0) = 1 := if_pos h3
  have hmax : max (1 : Int) (roundFifth t) = roundFifth t := max_eq_right h1
  have hcond : ¬(t - roundFifth t - roundFifth t < 1 ∧ 3 ≤ t) := by omega
  simp only [allocateWorkingDays, hm, hmax]
  rw [if_neg hcond, if_neg (by omega : ¬ t < 3)]

/-- Shared consequence of the characterization: for totals of at least 3 all
three phases are at least 1 and they sum to the total. -/
lemma allocateWorkingDays_parts (t : Int) (h3 : 3 ≤ t) :
    1 ≤ (allocateWorkingDays t).REQ_UX ∧ 1 ≤ (allocateWorkingDays t).DEV ∧
    1 ≤ (allocateWorkingDays t).QA ∧
    (allocateWorkingDays t).REQ_UX + (allocateWorkingDays t).DEV +
      (allocateWorkingDays t).QA = t := by
  rw [allocateWorkingDays_of_three_le t h3]
  dsimp only
  have h1 := roundFifth_one_le t h3
  have h2 := roundFifth_dev_pos t h3
  exact ⟨by omega, by omega, by omega, by ring⟩

/-- C1: for every integer total ≥ 0, allocateWorkingDays(total) returns three
non-negative integers whose sum REQ_UX + DEV + QA equals total. -/
theorem allocateWorkingDays_sum_nonneg (total : Int) (h : 0 ≤ total) :
    0 ≤ (allocateWorkingDays total).REQ_UX ∧
    0 ≤ (allocateWorkingDays total).DEV ∧
    0 ≤ (allocateWorkingDays total).QA ∧
    (allocateWorkingDays total).REQ_UX + (allocateWorkingDays total).DEV +
      (allocateWorkingDays total).QA = total := by
  rcases le_or_lt 3 total with h3 | h3
  · rw [allocateWorkingDays_of_three_le total h3]
    dsimp only
    have h1 := roundFifth_one_le total h3
    have h2 := roundFifth_dev_pos total h3
    refine ⟨by omega, by omega, by omega, by ring⟩
  · have : total = 0 ∨ total = 1 ∨ total = 2 := by omega
    rcases this with rfl | rfl | rfl <;> refine ⟨by decide, by decide, by decide, by decide⟩

/-- C1 witness: the sum invariant at the concrete total 10 (one default
sprint). -/
theorem allocateWorkingDays_sum_nonneg_witness :
    0 ≤ (10 : Int) ∧
      (0 ≤ (allocateWorkingDays 10).REQ_UX ∧
       0 ≤ (allocateWorkingDays 10).DEV ∧
       0 ≤ (allocateWorkingDays 10).QA ∧
       (allocateWorkingDays 10).REQ_UX + (allocateWorkingDays 10).DEV +
         (allocateWorkingDays 10).QA = 10) :=
  ⟨by decide, allocateWorkingDays_sum_nonneg 10 (by decide)⟩

/-- C6: for every total ≥ 3 each phase is at least 1, with REQ_UX and QA equal
to Math.round(total * 0.2) floored to a minimum of 1 (roundFifth is that
rounding) and DEV the remainder. -/
theorem allocateWorkingDays_min_floor (total : Int) (h3 : 3 ≤ total) :
    1 ≤ (allocateWorkingDays total).REQ_UX ∧
    1 ≤ (allocateWorkingDays total).DEV ∧
    1 ≤ (allocateWorkingDays total).QA ∧
    (allocateWorkingDays total).REQ_UX = max 1 (roundFifth total) ∧
    (allocateWorkingDays total).QA = max 1 (roundFifth total) ∧
    (allocateWorkingDays total).DEV =
      total - (allocateWorkingDays total).REQ_UX - (allocateWorkingDays total).QA := by
  rw [allocateWorkingDays_of_three_le total h3]
  dsimp only
  have h1 := roundFifth_one_le total h3
  have h2 := roundFifth_dev_pos total h3
  have hmax : max (1 : Int) (roundFifth total) = roundFifth total := max_eq_right h1
  exact ⟨by omega, by omega, by omega, by omega, by omega, by omega⟩

/-- C6 witness: the floor property at the concrete total 3. -/
theorem allocateWorkingDays_min_floor_witness :
    3 ≤ (3 : Int) ∧
      (1 ≤ (allocateWorkingDays 3).REQ_UX ∧
       1 ≤ (allocateWorkingDays 3).DEV ∧
       1 ≤ (allocateWorkingDays 3).QA ∧
       (allocateWorkingDays 3).REQ_UX = max 1 (roundFifth 3) ∧
       (allocateWorkingDays 3).QA = max 1 (roundFifth 3) ∧
       (allocateWorkingDays 3).DEV =
         3 - (allocateWorkingDays 3).REQ_UX - (allocateWorkingDays 3).QA) :=
  ⟨by decide, allocateWorkingDays_min_floor 3 (by decide)⟩

/-! ## The override validator -/

/-- C8: the validator returns none exactly when the effective dates are
ordered and contained in the item bounds; otherwise it reports the first
failing check in the source order EndBeforeStart, StartBeforeItemStart,
EndAfterItemEnd.  The validator is a pure function of its arguments: the
subtask itself is not part of the output. -/
theorem validateSubtaskOverride_spec (s : Subtask) (itemStart itemEnd : Int) :
    (validateSubtaskOverride s itemStart itemEnd = none ↔
      (getEffectiveDates s).1 ≤ (getEffectiveDates s).2 ∧
      itemStart ≤ (getEffectiveDates s).1 ∧ (getEffectiveDates s).2 ≤ itemEnd) ∧
    (validateSubtaskOverride s itemStart itemEnd = some OverrideError.EndBeforeStart ↔
      (getEffectiveDates s).2 < (getEffectiveDates s).1) ∧
    (validateSubtaskOverride s itemStart itemEnd = some OverrideError.StartBeforeItemStart ↔
      ¬((getEffectiveDates s).2 < (getEffectiveDates s).1) ∧
      (getEffectiveDates s).1 < itemStart) ∧
    (validateSubtaskOverride s itemStart itemEnd = some OverrideError.EndAfterItemEnd ↔
      ¬((getEffectiveDates s).2 < (getEffectiveDates s).1) ∧
      ¬((getEffectiveDates s).1 < itemStart) ∧ itemEnd < (getEffectiveDates s).2) := by
  simp only [validateSubtaskOverride]
  split_ifs with h1 h2 h3 <;> simp_all

/-! ## The weekend test against the configured weekend set (C4) -/

/-- C4 counterexample: the working-day test of the core does not consult the
configured weekendDays.  With weekendDays = [2] (Tuesday) and d = 6 (a
Saturday under the chosen epoch), isWeekend classifies d as non-working even
though its weekday 6 is not a member of the configured set. -/
theorem isWeekend_config_counterexample :
    ¬ (∀ (weekendDays : List Int) (d : Int),
        isWeekend d = true ↔ getDay d ∈ weekendDays) := by
  intro h
  have h2 := (h [2] 6).mp (by decide)
  exact absurd h2 (by decide)

/-- C4 amended: isWeekend uses the fixed weekend set Sunday (0) and
Saturday (6); this coincides with membership in the configured weekendDays
only for the default configuration value [0, 6]. -/
theorem isWeekend_fixed_weekend_set (d : Int) :
    (isWeekend d = true ↔ getDay d ∈ DEFAULT_CONFIG.weekendDays) ∧
    (isWeekend d = true ↔ getDay d = 0 ∨ getDay d = 6) := by
  have h := isWeekend_true_iff d
  constructor
  · rw [h]
    simp [DEFAULT_CONFIG, getDay]
  · rw [h]
    exact Iff.rfl

/-! ## C10: the two walking primitives only produce working days -/

/-- C10: nextWorkingDay returns a date at or after its input that is not a
weekend day, and addWorkingDays with any count n ≥ 0 returns a date that is
not a weekend day. -/
theorem walking_primitives_produce_working_days (d n : Int) (_hn : 0 ≤ n) :
    d ≤ nextWorkingDay d ∧ isWeekend (nextWorkingDay d) = false ∧
    isWeekend (addWorkingDays d n) = false :=
  ⟨le_nextWorkingDay d, nextWorkingDay_not_weekend d,
   addWorkingDaysAux_not_weekend n.toNat (nextWorkingDay d) (nextWorkingDay_not_weekend d)⟩

/-- C10 witness: at d = 6 (a Saturday) and n = 4. -/
theorem walking_primitives_produce_working_days_witness :
    0 ≤ (4 : Int) ∧
      ((6 : Int) ≤ nextWorkingDay 6 ∧ isWeekend (nextWorkingDay 6) = false ∧
       isWeekend (addWorkingDays 6 4) = false) :=
  ⟨by decide, walking_primitives_produce_working_days 6 4 (by decide)⟩

/-! ## C9: sprints before the anchor collapse onto the anchor window -/

/-- C9: for any well-formed configuration (workingDaysPerSprint ≥ 1) and any
sprint number before the anchor, sprintStartDate returns
nextWorkingDay(firstSprintStartDate): the negative working-day count makes
addWorkingDays perform no steps, so the result coincides with the start of
the anchor sprint itself. -/
theorem sprintStartDate_before_anchor (config : SprintConfig) (N : Int)
    (hw : 1 ≤ config.workingDaysPerSprint) (hN : N < config.firstSprintNumber) :
    sprintStartDate N config = nextWorkingDay config.firstSprintStartDate ∧
    sprintStartDate N config = sprintStartDate config.firstSprintNumber config := by
  have hdiff : ¬(N - config.firstSprintNumber = 0) := by omega
  have hneg : (N - config.firstSprintNumber) * config.workingDaysPerSprint < 0 :=
    mul_neg_of_neg_of_pos (by omega) (by omega)
  have htn : ((N - config.firstSprintNumber) * config.workingDaysPerSprint).toNat = 0 := by
    omega
  have hfirst : sprintStartDate N config = nextWorkingDay config.firstSprintStartDate := by
    simp only [sprintStartDate]
    rw [if_neg hdiff]
    unfold addWorkingDays
    rw [htn]
    rfl
  refine ⟨hfirst, ?_⟩
  rw [hfirst]
  simp only [sprintStartDate]
  rw [if_pos (sub_self _)]

/-- C9 witness: sprint 70 of the default configuration (anchor sprint 71)
starts on the anchor start. -/
theorem sprintStartDate_before_anchor_witness :
    1 ≤ DEFAULT_CONFIG.workingDaysPerSprint ∧ (70 : Int) < DEFAULT_CONFIG.firstSprintNumber ∧
      (sprintStartDate 70 DEFAULT_CONFIG = nextWorkingDay DEFAULT_CONFIG.firstSprintStartDate ∧
       sprintStartDate 70 DEFAULT_CONFIG =
         sprintStartDate DEFAULT_CONFIG.firstSprintNumber DEFAULT_CONFIG) :=
  ⟨by decide, by decide, sprintStartDate_before_anchor DEFAULT_CONFIG 70 (by decide) (by decide)⟩

/-! ## C7: the sprint-for-date scan is bounded -/

lemma getSprintForDateAux_le (date : Int) (config : SprintConfig) :
    ∀ (fuel : Nat) (s : Int), getSprintForDateAux date config fuel s ≤ s + fuel := by
  intro fuel
  induction fuel with
  | zero => intro s; simp [getSprintForDateAux]
  | succ fuel ih =>
    intro s
    rw [getSprintForDateAux]
    split_ifs
    · omega
    · have := ih (s + 1)
      push_cast at *
      omega

lemma getSprintForDateAux_sentinel (date : Int) (config : SprintConfig) :
    ∀ (fuel : Nat) (s : Int), getSprintForDateAux date config fuel s = s + fuel →
      ∀ n, s ≤ n → n < s + fuel → ¬ date ≤ sprintEndDate n config := by
  intro fuel
  induction fuel with
  | zero => intro s _ n _ _; omega
  | succ fuel ih =>
    intro s hs n hn1 hn2
    rw [getSprintForDateAux] at hs
    split_ifs at hs with hstop
    · exfalso; push_cast at hs; omega
    · rcases eq_or_lt_of_le hn1 with rfl | hlt
      · exact hstop
      · have hs2 : getSprintForDateAux date config fuel (s + 1) = (s + 1) + fuel := by
          push_cast at hs ⊢; omega
        exact ih (s + 1) hs2 n (by omega) (by push_cast at hn2 ⊢; omega)

/-- C7: for every date and every configuration, including malformed ones with
workingDaysPerSprint ≤ 0, the forward scan of getSprintForDate examines at
most the 1001 sprint numbers firstSprintNumber .. firstSprintNumber + 1000,
so the result never exceeds the sentinel firstSprintNumber + 1001, and the
sentinel is returned only when no examined sprint window reached the date. -/
theorem getSprintForDate_bounded_scan (date : Int) (config : SprintConfig) :
    getSprintForDate date config ≤ config.firstSprintNumber + 1001 ∧
    (getSprintForDate date config = config.firstSprintNumber + 1001 →
      ∀ n, config.firstSprintNumber ≤ n → n ≤ config.firstSprintNumber + 1000 →
        ¬ date ≤ sprintEndDate n config) := by
  unfold getSprintForDate
  split_ifs with h
  · exact ⟨by omega, by intro h2; omega⟩
  · constructor
    · have := getSprintForDateAux_le date config 1001 config.firstSprintNumber
      push_cast at this
      omega
    · intro hsent n hn1 hn2
      have hs : getSprintForDateAux date config 1001 config.firstSprintNumber =
          config.firstSprintNumber + (1001 : Nat) := by push_cast; omega
      exact getSprintForDateAux_sentinel date config 1001 config.firstSprintNumber hs n hn1
        (by push_cast; omega)

/-! ## C5: sprint windows are monotone, non-overlapping and contiguous -/

/-- Both branches of sprintStartDate are the same walk from the snapped anchor
date (the diff = 0 branch is the walk of length 0). -/
lemma sprintStartDate_eq_walk (N : Int) (config : SprintConfig) :
    sprintStartDate N config =
      addWorkingDaysAux
        ((N - config.firstSprintNumber) * config.workingDaysPerSprint).toNat
        (nextWorkingDay config.firstSprintStartDate) := by
  simp only [sprintStartDate]
  split_ifs with h
  · rw [h, zero_mul]
    simp [addWorkingDaysAux]
  · rfl

lemma sprintStartDate_not_weekend (N : Int) (config : SprintConfig) :
    isWeekend (sprintStartDate N config) = false := by
  rw [sprintStartDate_eq_walk]
  exact addWorkingDaysAux_not_weekend _ _ (nextWorkingDay_not_weekend _)

lemma sprintEndDate_eq_walk (N : Int) (config : SprintConfig) :
    sprintEndDate N config =
      addWorkingDaysAux
        (((N - config.firstSprintNumber) * config.workingDaysPerSprint).toNat +
          (config.workingDaysPerSprint - 1).toNat)
        (nextWorkingDay config.firstSprintStartDate) := by
  rw [sprintEndDate, addWorkingDays,
    nextWorkingDay_of_not_weekend _ (sprintStartDate_not_weekend N config),
    sprintStartDate_eq_walk, ← addWorkingDaysAux_add]

/-- C5: for every configuration with workingDaysPerSprint ≥ 1 and every sprint
number N at or after the anchor, sprint N + 1 starts on the first working day
strictly after the end of sprint N (equivalently addWorkingDays(end, 1)), the
window of sprint N is ordered, and consecutive windows do not overlap. -/
theorem sprint_windows_contiguous (config : SprintConfig) (N : Int)
    (hw : 1 ≤ config.workingDaysPerSprint) (hN : config.firstSprintNumber ≤ N) :
    sprintStartDate (N + 1) config = addWorkingDays (sprintEndDate N config) 1 ∧
    sprintStartDate (N + 1) config = nextWorkingDay (sprintEndDate N config + 1) ∧
    sprintStartDate N config ≤ sprintEndDate N config ∧
    sprintEndDate N config < sprintStartDate (N + 1) config ∧
    ∀ x, sprintEndDate N config < x → x < sprintStartDate (N + 1) config →
      isWeekend x = true := by
  have ha : 0 ≤ (N - config.firstSprintNumber) * config.workingDaysPerSprint :=
    mul_nonneg (by omega) (by omega)
  have hstep : (N + 1 - config.firstSprintNumber) * config.workingDaysPerSprint =
      (N - config.firstSprintNumber) * config.workingDaysPerSprint +
        config.workingDaysPerSprint := by ring
  have hidx : ((N + 1 - config.firstSprintNumber) * config.workingDaysPerSprint).toNat =
      (((N - config.firstSprintNumber) * config.workingDaysPerSprint).toNat +
        (config.workingDaysPerSprint - 1).toNat) + 1 := by
    rw [hstep]; omega
  have hend := sprintEndDate_eq_walk N config
  have hstart2 := sprintStartDate_eq_walk (N + 1) config
  rw [hidx] at hstart2
  have hnw : isWeekend (sprintEndDate N config) = false := by
    rw [hend]; exact addWorkingDaysAux_not_weekend _ _ (nextWorkingDay_not_weekend _)
  refine ⟨?_, ?_, ?_, ?_, ?_⟩
  · rw [addWorkingDays, nextWorkingDay_of_not_weekend _ hnw, hend, hstart2,
      ← addWorkingDaysAux_add]
    rfl
  · rw [hstart2, hend, addWorkingDaysAux_succ]
  · rw [sprintStartDate_eq_walk, hend]
    exact addWorkingDaysAux_le_of_le _ (by omega)
  · rw [hend, hstart2]
    exact addWorkingDaysAux_lt_succ _ _
  · intro x hx1 hx2
    rw [hend] at hx1
    rw [hstart2] at hx2
    exact addWorkingDaysAux_gap _ _ x hx1 hx2

/-- C5 witness: the default configuration at the anchor sprint 71. -/
theorem sprint_windows_contiguous_witness :
    1 ≤ DEFAULT_CONFIG.workingDaysPerSprint ∧
    DEFAULT_CONFIG.firstSprintNumber ≤ (71 : Int) ∧
      (sprintStartDate 72 DEFAULT_CONFIG = addWorkingDays (sprintEndDate 71 DEFAULT_CONFIG) 1 ∧
       sprintStartDate 72 DEFAULT_CONFIG = nextWorkingDay (sprintEndDate 71 DEFAULT_CONFIG + 1) ∧
       sprintStartDate 71 DEFAULT_CONFIG ≤ sprintEndDate 71 DEFAULT_CONFIG ∧
       sprintEndDate 71 DEFAULT_CONFIG < sprintStartDate 72 DEFAULT_CONFIG ∧
       ∀ x, sprintEndDate 71 DEFAULT_CONFIG < x → x < sprintStartDate 72 DEFAULT_CONFIG →
         isWeekend x = true) :=
  ⟨by decide, by decide, by

    have h := sprint_windows_contiguous DEFAULT_CONFIG 71 (by decide) (by decide)
    exact h⟩

/-! ## C2: the three generated phases partition the item working days -/

/-- When all three allocations are positive, the generation loop produces
exactly the three phase records, each starting at the next working day after
the previous phase ends. -/
lemma generateSubtasksGo_pos (itemStart c : Int) (alloc : SubtaskType → Int)
    (h1 : 0 < alloc SubtaskType.REQ_UX) (h2 : 0 < alloc SubtaskType.DEV)
    (h3 : 0 < alloc SubtaskType.QA) :
    ∃ e1 p2 e2 p3 e3 : Int,
      generateSubtasksGo itemStart alloc SUBTASK_ORDER c =
        [⟨SubtaskType.REQ_UX, nextWorkingDay c, e1, none, none⟩,
         ⟨SubtaskType.DEV, p2, e2, none, none⟩,
         ⟨SubtaskType.QA, p3, e3, none, none⟩] ∧
      e1 = addWorkingDays (nextWorkingDay c) (alloc SubtaskType.REQ_UX - 1) ∧
      p2 = nextWorkingDay (e1 + 1) ∧
      e2 = addWorkingDays p2 (alloc SubtaskType.DEV - 1) ∧
      p3 = nextWorkingDay (e2 + 1) ∧
      e3 = addWorkingDays p3 (alloc SubtaskType.QA - 1) := by
  refine ⟨_, _, _, _, _, ?_, rfl, rfl, rfl, rfl, rfl⟩
  simp [generateSubtasksGo, SUBTASK_ORDER, h1, h2, h3]

/-- A walk started at a working day needs no snapping. -/
lemma addWorkingDays_nwd (S m : Int) :
    addWorkingDays (nextWorkingDay S) m = addWorkingDaysAux m.toNat (nextWorkingDay S) := by
  rw [addWorkingDays, nextWorkingDay_of_not_weekend _ (nextWorkingDay_not_weekend S)]

lemma addWorkingDays_walk (S : Int) (j : Nat) (m : Int) :
    addWorkingDays (addWorkingDaysAux j (nextWorkingDay S)) m =
      addWorkingDaysAux (j + m.toNat) (nextWorkingDay S) := by
  rw [addWorkingDays,
    nextWorkingDay_of_not_weekend _
      (addWorkingDaysAux_not_weekend j _ (nextWorkingDay_not_weekend S)),
    addWorkingDaysAux_add]

/-- If the range from S to E holds exactly k + 1 working days, then the walk
position k is the last working day of the range: it is at most E and only
weekend days lie strictly between it and E. -/
lemma walk_reaches_last (S E : Int) (k : Nat) (hse : S ≤ E)
    (hcount : countWorkingDays S E = k + 1) :
    addWorkingDaysAux k (nextWorkingDay S) ≤ E ∧
    ∀ x, addWorkingDaysAux k (nextWorkingDay S) < x → x ≤ E → isWeekend x = true := by
  have hWw : isWeekend (addWorkingDaysAux k (nextWorkingDay S)) = false :=
    addWorkingDaysAux_not_weekend _ _ (nextWorkingDay_not_weekend S)
  have hcw : countWorkingDays S (addWorkingDaysAux k (nextWorkingDay S)) = k + 1 :=
    countWorkingDays_walk S k
  have hSw : S ≤ addWorkingDaysAux k (nextWorkingDay S) :=
    le_trans (le_nextWorkingDay S) (le_addWorkingDaysAux k _)
  have hwE : addWorkingDaysAux k (nextWorkingDay S) ≤ E := by
    by_contra hlt
    push_neg at hlt
    have hsplit := countWorkingDays_split S E (addWorkingDaysAux k (nextWorkingDay S))
      (by omega) (by omega)
    have hpos := countWorkingDays_pos (E + 1) (addWorkingDaysAux k (nextWorkingDay S))
      (addWorkingDaysAux k (nextWorkingDay S)) (by omega) (le_refl _) hWw
    omega
  refine ⟨hwE, ?_⟩
  intro x hx1 hx2
  cases hb : isWeekend x with
  | true => rfl
  | false =>
    exfalso
    have hsplit := countWorkingDays_split S (addWorkingDaysAux k (nextWorkingDay S)) E
      (by omega) hwE
    have hpos := countWorkingDays_pos (addWorkingDaysAux k (nextWorkingDay S) + 1) E x
      (by omega) hx2 hb
    omega

/-- C2: for an item range with at least 3 working days,
generateSubtasksFromDates produces exactly three subtasks in the order
REQ_UX, DEV, QA; each later phase starts on the next working day strictly
after the previous phase ends, the three auto ranges are ordered and do not
overlap, and the union of their working days is exactly the set of working
days of the item range. -/
theorem generateSubtasksFromDates_three_phases (S E : Int) (hse : S ≤ E)
    (h3 : 3 ≤ countWorkingDays S E) :
    ∃ s1 s2 s3 : Subtask,
      generateSubtasksFromDates S E = [s1, s2, s3] ∧
      s1.type = SubtaskType.REQ_UX ∧ s2.type = SubtaskType.DEV ∧
      s3.type = SubtaskType.QA ∧
      s2.autoStartDate = nextWorkingDay (s1.autoEndDate + 1) ∧
      s3.autoStartDate = nextWorkingDay (s2.autoEndDate + 1) ∧
      s1.autoStartDate ≤ s1.autoEndDate ∧ s1.autoEndDate < s2.autoStartDate ∧
      s2.autoStartDate ≤ s2.autoEndDate ∧ s2.autoEndDate < s3.autoStartDate ∧
      s3.autoStartDate ≤ s3.autoEndDate ∧
      workingSet s1.autoStartDate s1.autoEndDate ∪
          workingSet s2.autoStartDate s2.autoEndDate ∪
          workingSet s3.autoStartDate s3.autoEndDate =
        workingSet S E := by
  obtain ⟨hAr, hAd, hAq, hAsum⟩ := allocateWorkingDays_parts (countWorkingDays S E) h3
  have hgR : (allocateWorkingDays (countWorkingDays S E)).get SubtaskType.REQ_UX =
      (allocateWorkingDays (countWorkingDays S E)).REQ_UX := rfl
  have hgD : (allocateWorkingDays (countWorkingDays S E)).get SubtaskType.DEV =
      (allocateWorkingDays (countWorkingDays S E)).DEV := rfl
  have hgQ : (allocateWorkingDays (countWorkingDays S E)).get SubtaskType.QA =
      (allocateWorkingDays (countWorkingDays S E)).QA := rfl
  obtain ⟨e1, p2, e2, p3, e3, hlist, he1, hp2, he2, hp3, he3⟩ :=
    generateSubtasksGo_pos S S (allocateWorkingDays (countWorkingDays S E)).get
      (by rw [hgR]; omega) (by rw [hgD]; omega) (by rw [hgQ]; omega)
  rw [hgR] at he1
  rw [hgD] at he2
  rw [hgQ] at he3
  set R := (allocateWorkingDays (countWorkingDays S E)).REQ_UX.toNat with hRdef
  set D := (allocateWorkingDays (countWorkingDays S E)).DEV.toNat with hDdef
  set Q := (allocateWorkingDays (countWorkingDays S E)).QA.toNat with hQdef
  have hR1 : 1 ≤ R := by omega
  have hD1 : 1 ≤ D := by omega
  have hQ1 : 1 ≤ Q := by omega
  have hT : countWorkingDays S E = (R : Int) + D + Q := by omega
  have he1w : e1 = addWorkingDaysAux (R - 1) (nextWorkingDay S) := by
    rw [he1, addWorkingDays_nwd]
    congr 1
    omega
  have hp2w : p2 = addWorkingDaysAux R (nextWorkingDay S) := by
    rw [hp2, he1w, ← addWorkingDaysAux_succ]
    congr 1
    omega
  have he2w : e2 = addWorkingDaysAux (R + (D - 1)) (nextWorkingDay S) := by
    rw [he2, hp2w, addWorkingDays_walk]
    congr 1
    omega
  have hp3w : p3 = addWorkingDaysAux (R + D) (nextWorkingDay S) := by
    rw [hp3, he2w, ← addWorkingDaysAux_succ]
    congr 1
    omega
  have he3w : e3 = addWorkingDaysAux (R + D + (Q - 1)) (nextWorkingDay S) := by
    rw [he3, hp3w, addWorkingDays_walk]
    congr 1
    omega
  obtain ⟨hlast, habove⟩ := walk_reaches_last S E (R + D + (Q - 1)) hse (by omega)
  have hgap1 : ∀ x, addWorkingDaysAux (R - 1) (nextWorkingDay S) < x →
      x < addWorkingDaysAux R (nextWorkingDay S) → isWeekend x = true := by
    intro x hx1 hx2
    refine addWorkingDaysAux_gap (R - 1) (nextWorkingDay S) x hx1 ?_
    have hid : R - 1 + 1 = R := by omega
    rw [hid]
    exact hx2
  have hgap2 : ∀ x, addWorkingDaysAux (R + (D - 1)) (nextWorkingDay S) < x →
      x < addWorkingDaysAux (R + D) (nextWorkingDay S) → isWeekend x = true := by
    intro x hx1 hx2
    refine addWorkingDaysAux_gap (R + (D - 1)) (nextWorkingDay S) x hx1 ?_
    have hid : R + (D - 1) + 1 = R + D := by omega
    rw [hid]
    exact hx2
  refine ⟨⟨SubtaskType.REQ_UX, nextWorkingDay S, e1, none, none⟩,
    ⟨SubtaskType.DEV, p2, e2, none, none⟩,
    ⟨SubtaskType.QA, p3, e3, none, none⟩, hlist, rfl, rfl, rfl, hp2, hp3, ?_, ?_, ?_, ?_, ?_, ?_⟩
  · rw [he1w]
    exact le_addWorkingDaysAux (R - 1) (nextWorkingDay S)
  · rw [he1w, hp2w]
    exact addWorkingDaysAux_lt_of_lt _ (by omega)
  · rw [hp2w, he2w]
    exact addWorkingDaysAux_le_of_le _ (by omega)
  · rw [he2w, hp3w]
    exact addWorkingDaysAux_lt_of_lt _ (by omega)
  · rw [hp3w, he3w]
    exact addWorkingDaysAux_le_of_le _ (by omega)
  · rw [he1w, hp2w, he2w, hp3w, he3w]
    have c0 : S ≤ nextWorkingDay S := le_nextWorkingDay S
    have c1 : nextWorkingDay S ≤ addWorkingDaysAux (R - 1) (nextWorkingDay S) :=
      le_addWorkingDaysAux _ _
    have c2 : addWorkingDaysAux (R - 1) (nextWorkingDay S) ≤
        addWorkingDaysAux (R + D + (Q - 1)) (nextWorkingDay S) :=
      addWorkingDaysAux_le_of_le _ (by omega)
    have c3 : addWorkingDaysAux R (nextWorkingDay S) ≤
        addWorkingDaysAux (R + D + (Q - 1)) (nextWorkingDay S) :=
      addWorkingDaysAux_le_of_le _ (by omega)
    have c4 : addWorkingDaysAux (R + D) (nextWorkingDay S) ≤
        addWorkingDaysAux (R + D + (Q - 1)) (nextWorkingDay S) :=
      addWorkingDaysAux_le_of_le _ (by omega)
    have c5 : nextWorkingDay S ≤ addWorkingDaysAux R (nextWorkingDay S) :=
      le_addWorkingDaysAux _ _
    have c6 : nextWorkingDay S ≤ addWorkingDaysAux (R + D) (nextWorkingDay S) :=
      le_addWorkingDaysAux _ _
    have c7 : addWorkingDaysAux (R + (D - 1)) (nextWorkingDay S) ≤
        addWorkingDaysAux (R + D + (Q - 1)) (nextWorkingDay S) :=
      addWorkingDaysAux_le_of_le _ (by omega)
    ext x
    simp only [workingSet, Finset.mem_union, Finset.mem_filter, Finset.mem_Icc]
    constructor
    · rintro ((⟨⟨hx1, hx2⟩, hxw⟩ | ⟨⟨hx1, hx2⟩, hxw⟩) | ⟨⟨hx1, hx2⟩, hxw⟩) <;>
        exact ⟨⟨by omega, by omega⟩, hxw⟩
    · rintro ⟨⟨hx1, hx2⟩, hxw⟩
      have hge : nextWorkingDay S ≤ x := by
        by_contra hcon
        push_neg at hcon
        have hww := nextWorkingDay_min S x hx1 hcon
        simp [hww] at hxw
      have hle3 : x ≤ addWorkingDaysAux (R + D + (Q - 1)) (nextWorkingDay S) := by
        by_contra hcon
        push_neg at hcon
        have hww := habove x hcon hx2
        simp [hww] at hxw
      by_cases hc1 : x ≤ addWorkingDaysAux (R - 1) (nextWorkingDay S)
      · exact Or.inl (Or.inl ⟨⟨hge, hc1⟩, hxw⟩)
      push_neg at hc1
      by_cases hc2 : x < addWorkingDaysAux R (nextWorkingDay S)
      · have hww := hgap1 x hc1 hc2
        simp [hww] at hxw
      push_neg at hc2
      by_cases hc3 : x ≤ addWorkingDaysAux (R + (D - 1)) (nextWorkingDay S)
      · exact Or.inl (Or.inr ⟨⟨hc2, hc3⟩, hxw⟩)
      push_neg at hc3
      by_cases hc4 : x < addWorkingDaysAux (R + D) (nextWorkingDay S)
      · have hww := hgap2 x hc3 hc4
        simp [hww] at hxw
      push_neg at hc4
      exact Or.inr ⟨⟨hc4, hle3⟩, hxw⟩

/-- C2 witness: the range of the default sprint 71 (days 4..17, ten working
days). -/
theorem generateSubtasksFromDates_three_phases_witness :
    (4 : Int) ≤ 17 ∧ 3 ≤ countWorkingDays 4 17 ∧
      (∃ s1 s2 s3 : Subtask,
        generateSubtasksFromDates 4 17 = [s1, s2, s3] ∧
        s1.type = SubtaskType.REQ_UX ∧ s2.type = SubtaskType.DEV ∧
        s3.type = SubtaskType.QA ∧
        s2.autoStartDate = nextWorkingDay (s1.autoEndDate + 1) ∧
        s3.autoStartDate = nextWorkingDay (s2.autoEndDate + 1) ∧
        s1.autoStartDate ≤ s1.autoEndDate ∧ s1.autoEndDate < s2.autoStartDate ∧
        s2.autoStartDate ≤ s2.autoEndDate ∧ s2.autoEndDate < s3.autoStartDate ∧
        s3.autoStartDate ≤ s3.autoEndDate ∧
        workingSet s1.autoStartDate s1.autoEndDate ∪
            workingSet s2.autoStartDate s2.autoEndDate ∪
            workingSet s3.autoStartDate s3.autoEndDate =
          workingSet 4 17) :=
  ⟨by decide, by decide, generateSubtasksFromDates_three_phases 4 17 (by decide) (by decide)⟩

/-! ## C3: override preservation in recalculateSubtasks -/

lemma recalculateOne_type (cur : List Subtask) (i1 i2 : Int) (x : Subtask) :
    (recalculateOne cur i1 i2 x).type = x.type := by
  unfold recalculateOne
  cases h : cur.find? (fun s => s.type == x.type) with
  | none => rfl
  | some ex2 =>
    dsimp only
    split_ifs with h2
    · cases hv : validateSubtaskOverride
        { x with
          overrideStartDate := ex2.overrideStartDate
          overrideEndDate := ex2.overrideEndDate } i1 i2 with
      | none => simp [hv]
      | some e => simp [hv]
    · rfl

lemma find?_map_type_preserving (f : Subtask → Subtask)
    (hf : ∀ x, (f x).type = x.type) (l : List Subtask) (t : SubtaskType) :
    (l.map f).find? (fun x => x.type == t) = (l.find? (fun x => x.type == t)).map f := by
  induction l with
  | nil => rfl
  | cons a l ih =>
    simp only [List.map_cons]
    cases hb : a.type == t with
    | true => simp [List.find?, hf a, hb]
    | false => simp [List.find?, hf a, hb, ih]

lemma generateSubtasksGo_no_override (i : Int) (a : SubtaskType → Int) :
    ∀ (l : List SubtaskType) (c : Int) (s : Subtask),
      s ∈ generateSubtasksGo i a l c →
        s.overrideStartDate = none ∧ s.overrideEndDate = none := by
  intro l
  induction l with
  | nil =>
    intro c s h
    simp [generateSubtasksGo] at h
  | cons t rest ih =>
    intro c s h
    simp only [generateSubtasksGo] at h
    by_cases hd : 0 < a t
    · rw [if_pos hd] at h
      rcases List.mem_cons.mp h with rfl | h2
      · exact ⟨rfl, rfl⟩
      · exact ih _ s h2
    · rw [if_neg hd] at h
      rcases List.mem_cons.mp h with rfl | h2
      · exact ⟨rfl, rfl⟩
      · exact ih _ s h2

/-- C3: after recalculateSubtasks, the subtask returned for a phase carries
the existing override dates unchanged exactly when the existing subtask has at
least one override set and the override record (override where present, fresh
auto dates otherwise, per getEffectiveDates) validates against the new item
bounds; otherwise it is the freshly generated subtask, which carries no
override. -/
theorem recalculateSubtasks_override_spec (current : List Subtask)
    (startSprint endSprint : Int) (config : SprintConfig) (t : SubtaskType) (ex n : Subtask)
    (hex : current.find? (fun s => s.type == t) = some ex)
    (hn : (generateSubtasks startSprint endSprint config).find? (fun s => s.type == t) =
      some n) :
    n.overrideStartDate = none ∧ n.overrideEndDate = none ∧
    (recalculateSubtasks current startSprint endSprint config).find?
        (fun s => s.type == t) =
      some (if (ex.overrideStartDate.isSome || ex.overrideEndDate.isSome) = true ∧
              validateSubtaskOverride
                { n with
                  overrideStartDate := ex.overrideStartDate
                  overrideEndDate := ex.overrideEndDate }
                (sprintStartDate startSprint config) (sprintEndDate endSprint config) = none
            then
              { n with
                overrideStartDate := ex.overrideStartDate
                overrideEndDate := ex.overrideEndDate }
            else n) := by
  have hmem : n ∈ generateSubtasks startSprint endSprint config :=
    List.mem_of_find?_eq_some hn
  obtain ⟨hn1, hn2⟩ := generateSubtasksGo_no_override
    (sprintStartDate startSprint config)
    (allocateWorkingDays
      (countWorkingDays (sprintStartDate startSprint config)
        (sprintEndDate endSprint config))).get
    SUBTASK_ORDER (sprintStartDate startSprint config) n hmem
  have hnt : n.type = t := by
    have hp := List.find?_some hn
    simpa using hp
  refine ⟨hn1, hn2, ?_⟩
  have hmap : recalculateSubtasks current startSprint endSprint config =
      (generateSubtasks startSprint endSprint config).map
        (recalculateOne current (sprintStartDate startSprint config)
          (sprintEndDate endSprint config)) := rfl
  rw [hmap, find?_map_type_preserving _ (recalculateOne_type current _ _) _ t, hn]
  show some (recalculateOne current (sprintStartDate startSprint config)
    (sprintEndDate endSprint config) n) = _
  congr 1
  unfold recalculateOne
  have hex2 : current.find? (fun s => s.type == n.type) = some ex := by
    rw [hnt]; exact hex
  rw [hex2]
  dsimp only
  by_cases h2 : (ex.overrideStartDate.isSome || ex.overrideEndDate.isSome) = true
  · rw [if_pos h2]
    cases hv : validateSubtaskOverride
        { n with
          overrideStartDate := ex.overrideStartDate
          overrideEndDate := ex.overrideEndDate }
        (sprintStartDate startSprint config) (sprintEndDate endSprint config) with
    | none => simp [hv, h2]
    | some err => simp [hv, h2]
  · simp [h2]

/-- C3 witness: a DEV override (8, 9) inside the default sprint 71 bounds
survives recalculation unchanged. -/
theorem recalculateSubtasks_override_spec_witness :
    ([⟨SubtaskType.DEV, 0, 0, some 8, some 9⟩] : List Subtask).find?
        (fun s => s.type == SubtaskType.DEV) =
      some ⟨SubtaskType.DEV, 0, 0, some 8, some 9⟩ ∧
    (generateSubtasks 71 71 DEFAULT_CONFIG).find? (fun s => s.type == SubtaskType.DEV) =
      some ⟨SubtaskType.DEV, 8, 15, none, none⟩ ∧
    ((⟨SubtaskType.DEV, 8, 15, none, none⟩ : Subtask).overrideStartDate = none ∧
     (⟨SubtaskType.DEV, 8, 15, none, none⟩ : Subtask).overrideEndDate = none ∧
     (recalculateSubtasks [⟨SubtaskType.DEV, 0, 0, some 8, some 9⟩] 71 71
         DEFAULT_CONFIG).find? (fun s => s.type == SubtaskType.DEV) =
       some (if ((⟨SubtaskType.DEV, 0, 0, some 8, some 9⟩ : Subtask).overrideStartDate.isSome ||
                 (⟨SubtaskType.DEV, 0, 0, some 8, some 9⟩ : Subtask).overrideEndDate.isSome) = true ∧
               validateSubtaskOverride
                 { (⟨SubtaskType.DEV, 8, 15, none, none⟩ : Subtask) with
                   overrideStartDate :=
                     (⟨SubtaskType.DEV, 0, 0, some 8, some 9⟩ : Subtask).overrideStartDate
                   overrideEndDate :=
                     (⟨SubtaskType.DEV, 0, 0, some 8, some 9⟩ : Subtask).overrideEndDate }
                 (sprintStartDate 71 DEFAULT_CONFIG) (sprintEndDate 71 DEFAULT_CONFIG) = none
             then
               { (⟨SubtaskType.DEV, 8, 15, none, none⟩ : Subtask) with
                 overrideStartDate :=
                   (⟨SubtaskType.DEV, 0, 0, some 8, some 9⟩ : Subtask).overrideStartDate
                 overrideEndDate :=
                   (⟨SubtaskType.DEV, 0, 0, some 8, some 9⟩ : Subtask).overrideEndDate }
             else ⟨SubtaskType.DEV, 8, 15, none, none⟩)) :=
  ⟨by decide, by decide,
    recalculateSubtasks_override_spec [⟨SubtaskType.DEV, 0, 0, some 8, some 9⟩] 71 71
      DEFAULT_CONFIG SubtaskType.DEV ⟨SubtaskType.DEV, 0, 0, some 8, some 9⟩
      ⟨SubtaskType.DEV, 8, 15, none, none⟩ (by decide) (by decide)⟩

/-- The sprint-mode generator is the date-mode generator applied to the sprint
bounds: the two source functions share their loop verbatim. -/
lemma generateSubtasks_eq_fromDates (s e : Int) (config : SprintConfig) :
    generateSubtasks s e config =
      generateSubtasksFromDates (sprintStartDate s config) (sprintEndDate e config) := rfl
